import Mathlib

/-!
# Verification of the bookmark enrichment pipeline and processing-state ledger

Shallow embedding of the core of the bookmark-processing program:
* the processing-state ledger (`state/processed.ts`): mark/get/remove,
  pruning, recency-indexed lookup;
* content truncation (`enrichment/article.ts`);
* URL discovery and cleaning, and per-link classification
  (`enrichment/index.ts`, `enrichment/youtube.ts`);
* ledger loading with fallback.

Strings from the program are modelled as `List Char` (or `String` for opaque
identifiers in the ledger); timestamps as `Nat` milliseconds; JavaScript's
single floating-point comparison (`breakPoint > maxLength * 0.7`) is modelled
exactly via round-to-nearest-even double-precision arithmetic on integers.
External collaborators (network fetches, the transcript library, the article
extractor) are modelled as oracle functions supplied as parameters.
-/

namespace BirdBookmark

/-- Convert a string literal to the `List Char` representation used throughout. -/
def cs (s : String) : List Char := s.data

/-! ## Data model (`types.ts`) -/

structure Author where
  username : List Char
  name : List Char
  id : Option (List Char) := none
deriving Repr, DecidableEq

structure MediaRef where
  type : List Char
  url : List Char
deriving Repr, DecidableEq

/-- A bookmark record; `quotedTweet` is a self-referential optional field,
so this is an inductive type with accessor functions. -/
inductive Bookmark where
  | mk :
    (id : List Char) → (text : List Char) → (createdAt : List Char) →
    (author : Author) → (authorId : Option (List Char)) →
    (replyCount : Option Nat) → (retweetCount : Option Nat) →
    (likeCount : Option Nat) →
    (conversationId : Option (List Char)) → (inReplyToId : Option (List Char)) →
    (quotedTweet : Option Bookmark) → (media : Option (List MediaRef)) →
    Bookmark

def Bookmark.id : Bookmark → List Char
  | .mk i _ _ _ _ _ _ _ _ _ _ _ => i

def Bookmark.text : Bookmark → List Char
  | .mk _ t _ _ _ _ _ _ _ _ _ _ => t

def Bookmark.createdAt : Bookmark → List Char
  | .mk _ _ c _ _ _ _ _ _ _ _ _ => c

def Bookmark.author : Bookmark → Author
  | .mk _ _ _ a _ _ _ _ _ _ _ _ => a

def Bookmark.conversationId : Bookmark → Option (List Char)
  | .mk _ _ _ _ _ _ _ _ c _ _ _ => c

def Bookmark.inReplyToId : Bookmark → Option (List Char)
  | .mk _ _ _ _ _ _ _ _ _ r _ _ => r

def Bookmark.quotedTweet : Bookmark → Option Bookmark
  | .mk _ _ _ _ _ _ _ _ _ _ q _ => q

def Bookmark.media : Bookmark → Option (List MediaRef)
  | .mk _ _ _ _ _ _ _ _ _ _ _ m => m

/-! ## Processing-state ledger (`state/processed.ts`)

The persisted `ProcessedState` holds a record keyed by bookmark id.  The
record is modelled as an association list with unique keys kept in insertion
order; `processedAt` ISO strings are modelled as their millisecond values. -/

structure ProcessedEntry where
  id : String
  processedAt : Nat
  author : Option String := none
  destination : Option String := none
  action : Option String := none
  error : Option String := none
  bookmark : Option Bookmark := none

/-- `Partial<ProcessedEntry>`: every field optional.  Spread last in
`markProcessed`/`markError`, so present fields override the base object. -/
structure EntryPatch where
  id : Option String := none
  processedAt : Option Nat := none
  author : Option String := none
  destination : Option String := none
  action : Option String := none
  error : Option String := none
  bookmark : Option Bookmark := none

structure StateManager where
  processed : List (String × ProcessedEntry)
  lastRun : Nat
  dirty : Bool

/-- Object property assignment `obj[k] = v`: overwrite in place if the key
exists, otherwise append. -/
def setKey (k : String) (v : ProcessedEntry) : List (String × ProcessedEntry) →
    List (String × ProcessedEntry)
  | [] => [(k, v)]
  | (k', v') :: t => if k' = k then (k, v) :: t else (k', v') :: setKey k v t

def StateManager.isProcessed (st : StateManager) (id : String) : Bool :=
  (st.processed.lookup id).isSome

def StateManager.getEntry (st : StateManager) (id : String) : Option ProcessedEntry :=
  st.processed.lookup id

/-- The object literal `{ id, processedAt: now, ...metadata }`:
fields present in the patch win because the spread comes last. -/
def buildEntry (now : Nat) (id : String) (p : EntryPatch) : ProcessedEntry :=
  { id := p.id.getD id
    processedAt := p.processedAt.getD now
    author := p.author
    destination := p.destination
    action := p.action
    error := p.error
    bookmark := p.bookmark }

/-- The object literal `{ id, processedAt: now, error, ...metadata }`. -/
def buildErrorEntry (now : Nat) (id : String) (err : String) (p : EntryPatch) :
    ProcessedEntry :=
  { buildEntry now id p with error := some (p.error.getD err) }

def StateManager.markProcessed (st : StateManager) (now : Nat) (id : String)
    (metadata : EntryPatch) : StateManager :=
  { st with processed := setKey id (buildEntry now id metadata) st.processed
            dirty := true }

def StateManager.markError (st : StateManager) (now : Nat) (id : String)
    (error : String) (metadata : EntryPatch) : StateManager :=
  { st with processed := setKey id (buildErrorEntry now id error metadata) st.processed
            dirty := true }

/-- `delete obj[id]` on a unique-key record. -/
def eraseKey (k : String) (l : List (String × ProcessedEntry)) :
    List (String × ProcessedEntry) :=
  l.filter (fun p => p.1 ≠ k)

def StateManager.removeEntry (st : StateManager) (id : String) :
    Bool × StateManager :=
  if st.isProcessed id then
    (true, { st with processed := eraseKey id st.processed, dirty := true })
  else
    (false, st)

/-- An entry is pruned when `new Date(entry.processedAt).getTime() < cutoff`
with `cutoff = now - maxAgeMs`. -/
def pruneCond (now : Nat) (maxAgeMs : Nat) (e : ProcessedEntry) : Bool :=
  decide ((e.processedAt : Int) < (now : Int) - (maxAgeMs : Int))

def StateManager.prune (st : StateManager) (now : Nat) (maxAgeMs : Nat) :
    Nat × StateManager :=
  let removed := st.processed.countP (fun p => pruneCond now maxAgeMs p.2)
  let keep := st.processed.filter (fun p => ¬ pruneCond now maxAgeMs p.2)
  (removed,
   { st with processed := keep
             dirty := if removed = 0 then st.dirty else true })

def StateManager.getProcessedIds (st : StateManager) : List String :=
  st.processed.map Prod.fst

/-- Stable insertion into a timestamp-descending list: the inserted element
comes before the first element with a timestamp not larger than its own
(earlier elements of the original list stay first on ties, matching the
required stable sort with comparator `b.processedAt - a.processedAt`). -/
def insertByTimeDesc (e : ProcessedEntry) : List ProcessedEntry → List ProcessedEntry
  | [] => [e]
  | h :: t => if h.processedAt ≤ e.processedAt then e :: h :: t
              else h :: insertByTimeDesc e t

/-- Stable sort of `Object.values(processed)` by `processedAt` descending. -/
def sortByTimeDesc : List ProcessedEntry → List ProcessedEntry
  | [] => []
  | h :: t => insertByTimeDesc h (sortByTimeDesc t)

def StateManager.getRecentEntries (st : StateManager) (limit : Nat) : List ProcessedEntry :=
  (sortByTimeDesc (st.processed.map Prod.snd)).take limit

def StateManager.getEntryByIndex (st : StateManager) (index : Nat) :
    Option ProcessedEntry :=
  (st.getRecentEntries (index + 1))[index]?

def StateManager.getAllEntries (st : StateManager) : List ProcessedEntry :=
  sortByTimeDesc (st.processed.map Prod.snd)

/-! ## Content truncation (`enrichment/article.ts`)

`truncateContent` compares `breakPoint > maxLength * 0.7` in JavaScript
number (IEEE-754 binary64) arithmetic.  The literal `0.7` denotes the nearest
double, `6305039478318694 / 2^53`; the product with the integer `maxLength`
is itself rounded to the nearest double (ties to even).  That comparison is
reproduced exactly below with integer arithmetic. -/

/-- The integer significand of the double nearest `0.7`:
`(0.7 : binary64) = 6305039478318694 / 2 ^ 53`. -/
def double07Num : Nat := 6305039478318694

/-- Round the exact ratio `p / d` (with `0 < d`) to the nearest integer,
ties to even. -/
def roundTiesEven (p d : Nat) : Nat :=
  let q := p / d
  let r := p % d
  if 2 * r < d then q
  else if d < 2 * r then q + 1
  else if q % 2 = 0 then q else q + 1

/-- Floor of `log2`, fuel-driven so that it evaluates by kernel reduction.
The fuel `1000` covers every input below `2 ^ 1000`, far beyond the range of
JavaScript numbers that the modelled program can produce. -/
def log2Fuel : Nat → Nat → Nat
  | 0, _ => 0
  | f + 1, n => if 2 ≤ n then log2Fuel f (n / 2) + 1 else 0

def natLog2 (n : Nat) : Nat := log2Fuel 1000 n

/-- The JavaScript comparison `bp > m * 0.7`, with `bp` an integer (possibly
`-1`) and `m` a nonnegative integer, both exactly representable as doubles:
compute the double nearest `m * (0.7 : binary64)` and compare exactly. -/
def jsGtMul07 (bp : Int) (m : Nat) : Bool :=
  if m = 0 then decide (0 < bp)
  else
    -- exact product `m * 0.7₂ = p / 2 ^ 53`; normalise to 53 significant bits
    let p := m * double07Num
    let L := natLog2 p                 -- 2 ^ L ≤ p < 2 ^ (L + 1), L ≥ 52
    let k := roundTiesEven p (2 ^ (L - 52))
    -- the rounded product is `k * 2 ^ (L - 105)`
    match bp with
    | .negSucc _ => false
    | .ofNat b =>
      if 105 ≤ L then k * 2 ^ (L - 105) < b else k < b * 2 ^ (105 - L)

/-- `String.prototype.lastIndexOf` for the two-character pattern `". "`:
index of the start of the last occurrence, `-1` if none. -/
def lastPairIdxAux (p1 p2 : Char) : List Char → Nat → Int → Int
  | a :: b :: t, i, acc =>
    lastPairIdxAux p1 p2 (b :: t) (i + 1) (if a = p1 ∧ b = p2 then (i : Int) else acc)
  | _, _, acc => acc

def lastPairIdx (p1 p2 : Char) (l : List Char) : Int :=
  lastPairIdxAux p1 p2 l 0 (-1)

/-- `String.prototype.lastIndexOf` for a single character. -/
def lastCharIdxAux (c : Char) : List Char → Nat → Int → Int
  | [], _, acc => acc
  | a :: t, i, acc => lastCharIdxAux c t (i + 1) (if a = c then (i : Int) else acc)

def lastCharIdx (c : Char) (l : List Char) : Int :=
  lastCharIdxAux c l 0 (-1)

def ellipsis : List Char := ['.', '.', '.']

/-- `truncateContent` from `enrichment/article.ts`. -/
def truncateContent (content : List Char) (maxLength : Nat) : List Char :=
  if content.length ≤ maxLength then content
  else
    let truncated := content.take maxLength
    let lastPeriod := lastPairIdx '.' ' ' truncated
    let lastNewline := lastCharIdx '\n' truncated
    let breakPoint := max lastPeriod lastNewline
    if jsGtMul07 breakPoint maxLength then
      truncated.take (breakPoint + 1).toNat ++ ellipsis
    else
      truncated ++ ellipsis

/-- Modelled from the spec's words, for comparison with `truncateContent`:
identical except that "the break point lies beyond 70% of the maximum
length" is read as the exact rational comparison `breakPoint > 0.7 *
maxLength`, that is `10 * breakPoint > 7 * maxLength`. -/
def truncateContentSpec (content : List Char) (maxLength : Nat) : List Char :=
  if content.length ≤ maxLength then content
  else
    let truncated := content.take maxLength
    let lastPeriod := lastPairIdx '.' ' ' truncated
    let lastNewline := lastCharIdx '\n' truncated
    let breakPoint := max lastPeriod lastNewline
    if decide ((7 * maxLength : Int) < 10 * breakPoint) then
      truncated.take (breakPoint + 1).toNat ++ ellipsis
    else
      truncated ++ ellipsis

/-! ## URL discovery (`enrichment/index.ts`)

`extractUrls` matches the global regex `https?:\/\/[^\s)]+` and then cleans
each match.  The scanner below reproduces the regex engine's behaviour:
leftmost matches, greedy run of characters that are neither JavaScript
whitespace nor `)`, resuming after each match. -/

/-- JavaScript's `\s` character class. -/
def isJsSpace (c : Char) : Bool :=
  let n := c.toNat
  n == 9 || n == 10 || n == 11 || n == 12 || n == 13 || n == 32 ||
  n == 0xa0 || n == 0x1680 || (0x2000 ≤ n && n ≤ 0x200a) ||
  n == 0x2028 || n == 0x2029 || n == 0x202f || n == 0x205f ||
  n == 0x3000 || n == 0xfeff

/-- A character the regex class `[^\s)]` accepts. -/
def urlChar (c : Char) : Bool := !isJsSpace c && c != ')'

def httpMarker : List Char := ['h', 't', 't', 'p', ':', '/', '/']

def httpsMarker : List Char := ['h', 't', 't', 'p', 's', ':', '/', '/']

/-- Global scan for `https?:\/\/[^\s)]+`, reproducing the regex engine: at
each position try the scheme (the greedy optional `s` prefers `https`),
then require a non-empty greedy run of `[^\s)]` characters; on success
resume after the match, on failure resume one position further.  The fuel
is the length of the input, enough for the whole scan, and keeps the
function kernel-computable. -/
def scanUrls : Nat → List Char → List (List Char)
  | 0, _ => []
  | _ + 1, [] => []
  | fuel + 1, c :: rest =>
    if httpsMarker.isPrefixOf (c :: rest) then
      if ((c :: rest).drop 8).takeWhile urlChar = [] then scanUrls fuel rest
      else
        (httpsMarker ++ ((c :: rest).drop 8).takeWhile urlChar) ::
          scanUrls fuel (((c :: rest).drop 8).dropWhile urlChar)
    else if httpMarker.isPrefixOf (c :: rest) then
      if ((c :: rest).drop 7).takeWhile urlChar = [] then scanUrls fuel rest
      else
        (httpMarker ++ ((c :: rest).drop 7).takeWhile urlChar) ::
          scanUrls fuel (((c :: rest).drop 7).dropWhile urlChar)
    else scanUrls fuel rest

def findUrlMatches (l : List Char) : List (List Char) := scanUrls l.length l

/-- Characters of the cleanup class: period, comma, semicolon, colon,
exclamation mark, question mark, backtick, single and double quote. -/
def isTrailPunct (c : Char) : Bool :=
  c == '.' || c == ',' || c == ';' || c == ':' || c == '!' || c == '?' ||
  c == '`' || c == '\'' || c == '"'

/-- The first cleanup replacement: drop the maximal trailing run of cleanup
characters. -/
def stripTrailingPunct (l : List Char) : List Char :=
  (l.reverse.dropWhile isTrailPunct).reverse

/-- `replace(/XYZ$/, "")` for a three-character suffix: drop one occurrence
of `sfx` from the end, if present. -/
def stripEncSuffix (sfx : List Char) (l : List Char) : List Char :=
  if 3 ≤ l.length ∧ l.drop (l.length - 3) = sfx then l.take (l.length - 3) else l

/-- Per-match cleanup of `extractUrls`: trailing punctuation run, then one
`%60`, then one `%27`, then one `%22`. -/
def cleanUrl (l : List Char) : List Char :=
  stripEncSuffix ['%', '2', '2']
    (stripEncSuffix ['%', '2', '7']
      (stripEncSuffix ['%', '6', '0'] (stripTrailingPunct l)))

def extractUrls (text : List Char) : List (List Char) :=
  (findUrlMatches text).map cleanUrl

/-- The percent-encoded forms of the nine cleanup punctuation characters. -/
def encodedPunctForms : List (List Char) :=
  [cs "%2E", cs "%2C", cs "%3B", cs "%3A", cs "%21", cs "%3F",
   cs "%60", cs "%27", cs "%22"]

/-- Follows the words of the spec, for comparison with `cleanUrl`: one step
of stripping, from the end, either a punctuation character or the
percent-encoded form of one; `none` when nothing strippable remains. -/
def specStripStep (l : List Char) : Option (List Char) :=
  match l.reverse with
  | c :: t =>
    if isTrailPunct c then some t.reverse
    else if encodedPunctForms.contains (l.drop (l.length - 3)) ∧ 3 ≤ l.length then
      some (l.take (l.length - 3))
    else none
  | [] => none

/-- Follows the words of the spec: iterate `specStripStep` to a fixpoint. -/
def specCleanUrl : Nat → List Char → List Char
  | 0, l => l
  | f + 1, l =>
    match specStripStep l with
    | some l' => specCleanUrl f l'
    | none => l

/-- Follows the words of the spec: the URL tokens with trailing punctuation
characters and their percent-encoded forms stripped from the end. -/
def extractUrlsSpec (text : List Char) : List (List Char) :=
  (findUrlMatches text).map (fun m => specCleanUrl m.length m)

/-! ## Video transcripts (`enrichment/youtube.ts`) -/

/-- `String.prototype.includes`. -/
def containsSub (pat : List Char) : List Char → Bool
  | [] => decide (pat = [])
  | c :: rest => pat.isPrefixOf (c :: rest) || containsSub pat rest

def isYouTubeUrl (url : List Char) : Bool :=
  containsSub (cs "youtube.com/watch") url ||
  containsSub (cs "youtu.be/") url ||
  containsSub (cs "youtube.com/embed") url ||
  containsSub (cs "youtube.com/shorts") url

/-- First match of the regex shape `LITERAL([^X]+)`: at each position, if the
literal matches there and at least one character other than the stop
character follows, capture the maximal run; otherwise resume one position
further (as the regex engine does). -/
def findCapture (pat : List Char) (stop : Char) : List Char → Option (List Char)
  | [] => none
  | c :: rest =>
    if pat.isPrefixOf (c :: rest) then
      let cap := (List.drop pat.length (c :: rest)).takeWhile (fun x => x != stop)
      if cap = [] then findCapture pat stop rest else some cap
    else findCapture pat stop rest

/-- The five video-id patterns of `extractVideoId`, tried in order. -/
def videoIdPatterns : List (List Char × Char) :=
  [(cs "youtube.com/watch?v=", '&'),
   (cs "youtu.be/", '?'),
   (cs "youtube.com/embed/", '?'),
   (cs "youtube.com/v/", '?'),
   (cs "youtube.com/shorts/", '?')]

def extractVideoId (url : List Char) : Option (List Char) :=
  videoIdPatterns.foldl
    (fun acc ps => acc.orElse (fun _ => findCapture ps.1 ps.2 url)) none

/-- One segment of a fetched transcript; offsets and durations are
milliseconds. -/
structure TranscriptSegment where
  text : List Char
  offset : Nat
  duration : Nat
deriving Repr, DecidableEq

structure YouTubeContent where
  videoId : List Char
  title : Option (List Char)
  text : List Char
  duration : Option Nat
deriving Repr, DecidableEq

/-- Outcome of an awaited external call: resolved value or thrown error
message. -/
inductive FetchResult (α : Type) where
  | ok : α → FetchResult α
  | err : List Char → FetchResult α

/-- Raw result of the article-extractor library for a URL (`none` models
both a null result and a thrown or timed-out extraction). -/
structure RawArticle where
  title : Option (List Char) := none
  content : Option (List Char) := none
  author : Option (List Char) := none
  published : Option (List Char) := none
  description : Option (List Char) := none
  url : Option (List Char) := none

/-- External collaborators of the enrichment pipeline, supplied as oracles:
redirect resolution for shortener links, the transcript library, and the
article extractor. -/
structure Oracle where
  resolve : List Char → List Char
  fetchTranscript : List Char → FetchResult (List TranscriptSegment)
  rawArticle : List Char → Option RawArticle

/-- The condition under which `getYouTubeTranscript` suppresses logging:
the thrown message names an expected kind of transcript absence. -/
def expectedTranscriptFailure (msg : List Char) : Bool :=
  containsSub (cs "Transcript is disabled") msg ||
  containsSub (cs "No transcript") msg

/-- `Math.round((offset + duration) / 1000)` on millisecond integers. -/
def roundToSeconds (ms : Nat) : Nat := (ms + 500) / 1000

/-- `getYouTubeTranscript`: `none` whenever the video id cannot be
extracted, the segment list is empty, or the fetch throws (whatever the
message); the expected/unexpected distinction only selects logging. -/
def getYouTubeTranscript (o : Oracle) (url : List Char) : Option YouTubeContent :=
  match extractVideoId url with
  | none => none
  | some videoId =>
    match o.fetchTranscript videoId with
    | .err _ => none
    | .ok segments =>
      if segments = [] then none
      else
        let fullText := List.intercalate [' '] (segments.map (fun s => s.text))
        let duration :=
          match segments.getLast? with
          | some last => some (roundToSeconds (last.offset + last.duration))
          | none => none
        some { videoId := videoId, title := none, text := fullText,
               duration := duration }

/-! ## Article extraction (`enrichment/article.ts`) -/

/-- JavaScript `value || null` on an optional string: the empty string is
falsy and becomes null. -/
def normField : Option (List Char) → Option (List Char)
  | some [] => none
  | x => x

structure ArticleContent where
  title : Option (List Char)
  content : Option (List Char)
  author : Option (List Char)
  published : Option (List Char)
  description : Option (List Char)
  url : List Char

/-- `extractArticle`: `none` on a null result, a thrown error or a timeout;
otherwise field-normalised content with `article.url || url`. -/
def extractArticle (o : Oracle) (url : List Char) : Option ArticleContent :=
  (o.rawArticle url).map (fun a =>
    { title := normField a.title
      content := normField a.content
      author := normField a.author
      published := normField a.published
      description := normField a.description
      url := match normField a.url with | some u => u | none => url })

/-! ## Link enrichment (`enrichment/index.ts`) -/

inductive LinkType where
  | article | youtube | twitter | image | unknown
deriving Repr, DecidableEq

structure LinkInfo where
  url : List Char
  type : LinkType
  title : Option (List Char) := none
  content : Option (List Char) := none
  author : Option (List Char) := none
  publishedDate : Option (List Char) := none
  duration : Option Nat := none
  error : Option (List Char) := none
deriving Repr, DecidableEq

structure EnrichmentConfig where
  fetchArticles : Bool
  fetchYouTube : Bool
  expandThreads : Bool
  maxContentLength : Nat
  timeoutMs : Nat

/-- `resolveUrl`: non-shortener URLs pass through; for shortener URLs the
oracle yields the followed redirect (or, on failure, the original URL). -/
def resolveUrl (o : Oracle) (url : List Char) : List Char :=
  if containsSub (cs "t.co/") url then o.resolve url else url

def lowerChar (c : Char) : Char := c.toLower

def imageExts : List (List Char) :=
  [cs "jpg", cs "jpeg", cs "png", cs "gif", cs "webp", cs "svg"]

/-- A match of the image regex starting exactly at the head of `l`: a dot,
one of the extensions (case-insensitively), then end of string or a question
mark. -/
def imageExtAt : List Char → Bool
  | '.' :: rest =>
    imageExts.any (fun e =>
      (rest.take e.length).map lowerChar = e &&
      (List.drop e.length rest = [] || (List.drop e.length rest).head? = some '?'))
  | _ => false

/-- The test of the image regex anywhere in the URL. -/
def isImageUrl : List Char → Bool
  | [] => false
  | c :: rest => imageExtAt (c :: rest) || isImageUrl rest

/-- `enrichLink`: resolve, then classify in priority order with the
per-category fetch folded in. -/
def enrichLink (o : Oracle) (config : EnrichmentConfig) (url : List Char) : LinkInfo :=
  let resolvedUrl := resolveUrl o url
  if isYouTubeUrl resolvedUrl && config.fetchYouTube then
    match getYouTubeTranscript o resolvedUrl with
    | some transcript =>
      { url := resolvedUrl, type := .youtube, title := transcript.title
        content := some (truncateContent transcript.text config.maxContentLength)
        duration := transcript.duration }
    | none =>
      { url := resolvedUrl, type := .youtube, error := some (cs "Transcript unavailable") }
  else if containsSub (cs "twitter.com/") resolvedUrl ||
      containsSub (cs "x.com/") resolvedUrl then
    { url := resolvedUrl, type := .twitter }
  else if isImageUrl resolvedUrl then
    { url := resolvedUrl, type := .image }
  else if config.fetchArticles then
    match extractArticle o resolvedUrl with
    | some article =>
      match article.content with
      | some (c :: rest) =>
        { url := resolvedUrl, type := .article, title := article.title
          content := some (truncateContent (c :: rest) config.maxContentLength)
          author := article.author, publishedDate := article.published }
      | _ => { url := resolvedUrl, type := .unknown }
    | none => { url := resolvedUrl, type := .unknown }
  else
    { url := resolvedUrl, type := .unknown }

/-! ## Whole-bookmark enrichment (`enrichment/index.ts`) -/

structure BookmarkMetadata where
  hasLinks : Bool
  hasMedia : Bool
  isThread : Bool
  isQuote : Bool
  linkTypes : List LinkType
  estimatedReadTime : Option Nat := none

structure EnrichedBookmark where
  base : Bookmark
  enrichedLinks : List LinkInfo
  threadContent : Option (List Char) := none
  quotedContent : Option (List Char) := none
  metadata : BookmarkMetadata
  sourceUrl : List Char

def buildSourceUrl (bookmark : Bookmark) : List Char :=
  cs "https://x.com/" ++ bookmark.author.username ++ cs "/status/" ++ bookmark.id

/-- The minimal enrichment pushed by `enrichBookmarks` when the per-bookmark
enrichment throws. -/
def minimalEnrichment (bookmark : Bookmark) : EnrichedBookmark :=
  { base := bookmark
    enrichedLinks := []
    threadContent := none
    quotedContent := none
    metadata := { hasLinks := false, hasMedia := false, isThread := false,
                  isQuote := false, linkTypes := [] }
    sourceUrl := buildSourceUrl bookmark }

/-- `enrichBookmarks`: the awaited call `enrichBookmark(bookmark, config)` is
modelled by the `attempt` parameter, whose thrown exceptions are the `err`
case; the loop catches them and still pushes a minimal record. -/
def enrichBookmarks (attempt : Bookmark → FetchResult EnrichedBookmark)
    (bookmarks : List Bookmark) : List EnrichedBookmark :=
  bookmarks.map (fun bookmark =>
    match attempt bookmark with
    | .ok enriched => enriched
    | .err _ => minimalEnrichment bookmark)

/-! ## Ledger loading (`state/processed.ts`, `load`)

`load` returns `JSON.parse(data)` without validation when the file exists
and parses; only a missing file or a thrown read/parse is caught and
replaced by the empty ledger.  JSON values are modelled structurally
(numbers as integers, which covers every value relevant here). -/

inductive Json where
  | null : Json
  | bool : Bool → Json
  | num : Int → Json
  | str : List Char → Json
  | arr : List Json → Json
  | obj : List (List Char × Json) → Json

/-- The empty-ledger fallback `{ version: 1, lastRun: now, processed: {} }`. -/
def emptyLedger (nowIso : List Char) : Json :=
  .obj [(cs "version", .num 1), (cs "lastRun", .str nowIso),
        (cs "processed", .obj [])]

/-- `load`: the file system and `JSON.parse` are summarised by the argument:
`none` when the file does not exist, `some (.error e)` when reading or
parsing throws, `some (.ok j)` when parsing yields the value `j`. -/
def loadState (nowIso : List Char) (file : Option (Except (List Char) Json)) : Json :=
  match file with
  | none => emptyLedger nowIso
  | some (.error _) => emptyLedger nowIso
  | some (.ok parsed) => parsed

def lookupField (name : List Char) : Json → Option Json
  | .obj fields => fields.lookup name
  | _ => none

/-- A JSON value of the shape of `ProcessedState`: a numeric `version`, a
string `lastRun`, and an object `processed` whose values are objects with
string `id` and `processedAt` fields. -/
def isValidLedger (j : Json) : Bool :=
  match j with
  | .obj _ =>
    (match lookupField (cs "version") j with | some (.num _) => true | _ => false) &&
    (match lookupField (cs "lastRun") j with | some (.str _) => true | _ => false) &&
    (match lookupField (cs "processed") j with
     | some (.obj entries) =>
       entries.all (fun e =>
         (match lookupField (cs "id") e.2 with | some (.str _) => true | _ => false) &&
         (match lookupField (cs "processedAt") e.2 with
          | some (.str _) => true | _ => false))
     | _ => false)
  | _ => false

/-! ## Concrete instances used to instantiate theorems -/

/-- The enrichment block of `DEFAULT_CONFIG` in `config.ts`. -/
def defaultEnrichment : EnrichmentConfig :=
  { fetchArticles := true, fetchYouTube := true, expandThreads := true
    maxContentLength := 50000, timeoutMs := 30000 }

/-- An oracle with identity redirect resolution, a fixed transcript-fetch
outcome and no extractable articles. -/
def stubOracle (tr : FetchResult (List TranscriptSegment)) : Oracle :=
  { resolve := fun u => u
    fetchTranscript := fun _ => tr
    rawArticle := fun _ => none }

/-- A concrete bookmark for witnesses. -/
def sampleBookmark : Bookmark :=
  .mk (cs "1") (cs "hello") (cs "2024-01-01")
    { username := cs "user", name := cs "User" }
    none none none none none none none none

/-! ## Helper lemmas: ledger -/

theorem lookup_setKey_self (k : String) (v : ProcessedEntry) :
    ∀ l : List (String × ProcessedEntry), (setKey k v l).lookup k = some v := by
  intro l
  induction l with
  | nil => simp [setKey]
  | cons h t ih =>
    obtain ⟨k', v'⟩ := h
    by_cases hk : k' = k
    · subst hk
      simp [setKey]
    · simp [setKey, hk, List.lookup, Ne.symm hk, beq_false_of_ne (Ne.symm hk), ih]

theorem lookup_eraseKey_self (k : String) :
    ∀ l : List (String × ProcessedEntry), (eraseKey k l).lookup k = none := by
  intro l
  induction l with
  | nil => simp [eraseKey]
  | cons h t ih =>
    obtain ⟨k', v'⟩ := h
    by_cases hk : k' = k
    · subst hk
      simpa [eraseKey] using ih
    · simpa [eraseKey, hk, List.lookup, beq_false_of_ne (Ne.symm hk)] using ih

theorem countP_filter_not (p : (String × ProcessedEntry) → Bool) :
    ∀ l : List (String × ProcessedEntry),
      (l.filter (fun a => ¬ p a)).countP p = 0 := by
  intro l
  induction l with
  | nil => rfl
  | cons h t ih =>
    by_cases hp : p h <;> simp [List.filter_cons, hp, List.countP_cons, ih]

theorem sortByTimeDesc_max :
    ∀ (l : List ProcessedEntry), l ≠ [] →
      ∃ e t, sortByTimeDesc l = e :: t ∧ e ∈ l ∧
        ∀ x ∈ l, x.processedAt ≤ e.processedAt := by
  intro l
  induction l with
  | nil => intro h; exact absurd rfl h
  | cons a l' ih =>
    intro _
    by_cases hl : l' = []
    · subst hl
      exact ⟨a, [], rfl, List.mem_singleton.mpr rfl, by
        intro x hx
        rw [List.mem_singleton] at hx
        exact hx ▸ le_refl _⟩
    · obtain ⟨e', t', hsort, hmem, hmax⟩ := ih hl
      by_cases hle : e'.processedAt ≤ a.processedAt
      · refine ⟨a, e' :: t', ?_, List.mem_cons_self a l', ?_⟩
        · simp [sortByTimeDesc, hsort, insertByTimeDesc, hle]
        · intro x hx
          rcases List.mem_cons.mp hx with h | h
          · exact h ▸ le_refl _
          · exact le_trans (hmax x h) hle
      · refine ⟨e', insertByTimeDesc a t', ?_, List.mem_cons_of_mem a hmem, ?_⟩
        · simp [sortByTimeDesc, hsort, insertByTimeDesc, hle]
        · intro x hx
          rcases List.mem_cons.mp hx with h | h
          · exact h ▸ le_of_not_le hle
          · exact hmax x h

/-! ## Claim theorems: ledger -/

/-- C1, counterexample to the claim as stated: `markProcessed` spreads the
fields argument last, so a `processedAt` value inside it overrides the
current-time stamp.  Marking id `a` at current time `5` with fields
carrying `processedAt = 0` yields an entry stamped `0`, not `5`. -/
theorem claim1_counterexample :
    (((StateManager.mk [] 0 false).markProcessed 5 "a"
        { processedAt := some 0 }).getEntry "a").map ProcessedEntry.processedAt ≠
      some 5 := by
  decide

/-- C1 (amended): for every identifier `id` and fields `f` that do not
themselves carry a `processedAt` value, `markProcessed id f` overwrites any
existing entry for `id` with a new entry stamped with the current time,
reflecting every field of `f` (with a field of `f` named `id` taking
precedence over the key, since the fields are spread last), and marks the
ledger dirty; afterwards `isProcessed id` is true, and after a subsequent
`removeEntry id`, `removeEntry` has returned true and `isProcessed id` is
false. -/
theorem claim1_amended (st : StateManager) (now : Nat) (id : String)
    (f : EntryPatch) (hts : f.processedAt = none) :
    ((st.markProcessed now id f).isProcessed id = true) ∧
    ((st.markProcessed now id f).getEntry id =
      some { id := f.id.getD id, processedAt := now, author := f.author,
             destination := f.destination, action := f.action,
             error := f.error, bookmark := f.bookmark }) ∧
    ((st.markProcessed now id f).dirty = true) ∧
    (((st.markProcessed now id f).removeEntry id).1 = true) ∧
    (((st.markProcessed now id f).removeEntry id).2.isProcessed id = false) := by
  have hget : (st.markProcessed now id f).getEntry id =
      some (buildEntry now id f) := by
    simp [StateManager.markProcessed, StateManager.getEntry, lookup_setKey_self]
  have hproc : (st.markProcessed now id f).isProcessed id = true := by
    simp [StateManager.isProcessed, StateManager.markProcessed,
      lookup_setKey_self]
  refine ⟨hproc, ?_, rfl, ?_, ?_⟩
  · rw [hget]
    simp [buildEntry, hts]
  · simp [StateManager.removeEntry, hproc]
  · have hrem : ((st.markProcessed now id f).removeEntry id).2.processed =
        eraseKey id (st.markProcessed now id f).processed := by
      simp [StateManager.removeEntry, hproc]
    rw [StateManager.isProcessed, hrem, lookup_eraseKey_self]
    rfl

/-- Witness for C1 at a concrete input: empty ledger, id `a`, empty fields,
current time `5`. -/
theorem claim1_witness :
    (((StateManager.mk [] 0 false).markProcessed 5 "a" {}).isProcessed "a" = true) ∧
    (((StateManager.mk [] 0 false).markProcessed 5 "a" {}).getEntry "a" =
      some { id := (({} : EntryPatch)).id.getD "a", processedAt := 5,
             author := none, destination := none, action := none,
             error := none, bookmark := none }) ∧
    (((StateManager.mk [] 0 false).markProcessed 5 "a" {}).dirty = true) ∧
    ((((StateManager.mk [] 0 false).markProcessed 5 "a" {}).removeEntry "a").1 = true) ∧
    ((((StateManager.mk [] 0 false).markProcessed 5 "a" {}).removeEntry
        "a").2.isProcessed "a" = false) :=
  claim1_amended (StateManager.mk [] 0 false) 5 "a" {} rfl

/-- C3: `prune` removes exactly the entries whose own timestamp is older
than `now - maxAgeMs` (strictly), returns how many it removed, and a second
`prune` with the same arguments and no entries added in between removes 0
entries. -/
theorem claim3 (st : StateManager) (now maxAgeMs : Nat) :
    ((st.prune now maxAgeMs).1 =
      st.processed.countP
        (fun p => decide ((p.2.processedAt : Int) < (now : Int) - (maxAgeMs : Int)))) ∧
    ((st.prune now maxAgeMs).2.processed =
      st.processed.filter
        (fun p => ¬ decide ((p.2.processedAt : Int) < (now : Int) - (maxAgeMs : Int)))) ∧
    (((st.prune now maxAgeMs).2.prune now maxAgeMs).1 = 0) := by
  refine ⟨rfl, rfl, ?_⟩
  exact countP_filter_not (fun p => pruneCond now maxAgeMs p.2) st.processed

/-- C4: `getEntryByIndex i` is literally `getRecentEntries (i+1)` indexed at
`i`, and on a non-empty ledger `getEntryByIndex 0` is an entry of the ledger
whose timestamp is maximal among all current entries. -/
theorem claim4 :
    (∀ (st : StateManager) (i : Nat),
      st.getEntryByIndex i = (st.getRecentEntries (i + 1))[i]?) ∧
    (∀ st : StateManager, st.processed ≠ [] →
      ∃ e, st.getEntryByIndex 0 = some e ∧ e ∈ st.processed.map Prod.snd ∧
        ∀ x ∈ st.processed.map Prod.snd, x.processedAt ≤ e.processedAt) := by
  constructor
  · intro st i
    rfl
  · intro st hne
    have hmapne : st.processed.map Prod.snd ≠ [] := by
      simpa using hne
    obtain ⟨e, t, hsort, hmem, hmax⟩ :=
      sortByTimeDesc_max (st.processed.map Prod.snd) hmapne
    refine ⟨e, ?_, hmem, hmax⟩
    simp [StateManager.getEntryByIndex, StateManager.getRecentEntries, hsort]

/-- Witness for C4 at a concrete two-entry ledger: index 0 returns the entry
with the larger timestamp. -/
theorem claim4_witness :
    ∃ e, (StateManager.mk
        [("a", { id := "a", processedAt := 100 }),
         ("b", { id := "b", processedAt := 200 })] 0 false).getEntryByIndex 0 =
          some e ∧
      e ∈ (StateManager.mk
        [("a", { id := "a", processedAt := 100 }),
         ("b", { id := "b", processedAt := 200 })] 0 false).processed.map Prod.snd ∧
      ∀ x ∈ (StateManager.mk
        [("a", { id := "a", processedAt := 100 }),
         ("b", { id := "b", processedAt := 200 })] 0 false).processed.map Prod.snd,
        x.processedAt ≤ e.processedAt :=
  claim4.2 (StateManager.mk
    [("a", { id := "a", processedAt := 100 }),
     ("b", { id := "b", processedAt := 200 })] 0 false) (by simp)

/-! ## Claim theorems: truncation -/

/-- C2, counterexample to the claim as stated: with `m = 90` the JavaScript
comparison computes `90 * 0.7 = 62.99999999999999`, so a break point at
index `63` — exactly 70% of `m`, not beyond it — is accepted and the content
is cut at the sentence boundary, while the exact reading of "beyond 70%"
demands the hard cut.  The two disagree on 63 letters followed by a
sentence end and 30 more letters. -/
theorem claim2_counterexample :
    truncateContent (List.replicate 63 'a' ++ ['.', ' '] ++ List.replicate 30 'b') 90 ≠
      truncateContentSpec
        (List.replicate 63 'a' ++ ['.', ' '] ++ List.replicate 30 'b') 90 := by
  decide

/-- C2 (amended): content at or under the limit is returned unchanged;
longer content is truncated to at most `m + 3` characters, cut at the later
of the last ". " and the last newline within the first `m` characters
whenever that break point exceeds 70% of `m` as evaluated in JavaScript
double-precision arithmetic (`breakPoint > m * 0.7` on binary64 doubles),
inclusive of the punctuation and with an ellipsis appended, and otherwise
cut hard at `m` with an ellipsis appended. -/
theorem claim2_amended (c : List Char) (m : Nat) :
    (c.length ≤ m → truncateContent c m = c) ∧
    (m < c.length →
      (truncateContent c m).length ≤ m + 3 ∧
      truncateContent c m =
        (if jsGtMul07
            (max (lastPairIdx '.' ' ' (c.take m)) (lastCharIdx '\n' (c.take m))) m then
          (c.take m).take
            ((max (lastPairIdx '.' ' ' (c.take m)) (lastCharIdx '\n' (c.take m)) + 1)).toNat
            ++ ellipsis
        else
          c.take m ++ ellipsis)) := by
  constructor
  · intro h
    simp [truncateContent, h]
  · intro h
    have hnle : ¬ c.length ≤ m := not_le.mpr h
    constructor
    · rw [truncateContent]
      simp only [hnle, if_false]
      split
      · have h1 : (((c.take m).take
            ((max (lastPairIdx '.' ' ' (c.take m)) (lastCharIdx '\n' (c.take m)) + 1)).toNat)).length
            ≤ (c.take m).length := by
          rw [List.length_take, List.length_take]
          omega
        have h2 : (c.take m).length ≤ m := by
          rw [List.length_take]; omega
        have he : ellipsis.length = 3 := rfl
        simp only [List.length_append]
        omega
      · have h2 : (c.take m).length ≤ m := by
          rw [List.length_take]; omega
        have he : ellipsis.length = 3 := rfl
        simp only [List.length_append]
        omega
    · rw [truncateContent]
      simp only [hnle, if_false]

/-- Witness for C2 at concrete inputs: a 39-character content with limit 25
goes over the limit and the result stays within 28 characters; an
11-character content with limit 20 is returned unchanged. -/
theorem claim2_witness :
    (25 < (cs "First sentence. Second sentence is long").length ∧
      (truncateContent (cs "First sentence. Second sentence is long") 25).length ≤ 25 + 3) ∧
    ((cs "hello world").length ≤ 20 ∧
      truncateContent (cs "hello world") 20 = cs "hello world") :=
  ⟨⟨by decide,
    ((claim2_amended (cs "First sentence. Second sentence is long") 25).2 (by decide)).1⟩,
   ⟨by decide, (claim2_amended (cs "hello world") 20).1 (by decide)⟩⟩

/-! ## Helper lemmas: URL extraction -/

theorem dropWhile_append_cons (p : Char → Bool) (a : List Char) (b : Char)
    (z : List Char) (hb : p b = false) :
    List.dropWhile p (a ++ b :: z) = List.dropWhile p a ++ b :: z := by
  induction a with
  | nil => simp [List.dropWhile_cons, hb]
  | cons x a' ih =>
    by_cases hx : p x <;> simp [List.dropWhile_cons, hx, ih]

theorem stripTrailingPunct_marker (pre r : List Char)
    (hpre : pre = httpMarker ∨ pre = httpsMarker) :
    stripTrailingPunct (pre ++ r) = pre ++ stripTrailingPunct r := by
  obtain ⟨q, hq⟩ : ∃ q, pre = q ++ ['/'] := by
    rcases hpre with h | h <;> subst h
    · exact ⟨['h', 't', 't', 'p', ':', '/'], rfl⟩
    · exact ⟨['h', 't', 't', 'p', 's', ':', '/'], rfl⟩
  subst hq
  have h1 : ((q ++ ['/']) ++ r).reverse = r.reverse ++ '/' :: q.reverse := by
    simp
  rw [stripTrailingPunct, stripTrailingPunct, h1,
    dropWhile_append_cons _ _ _ _ (by rfl)]
  simp

theorem mem_stripTrailingPunct (c : Char) (l : List Char)
    (h : c ∈ stripTrailingPunct l) : c ∈ l := by
  rw [stripTrailingPunct, List.mem_reverse] at h
  exact List.mem_reverse.mp (List.Sublist.mem h (List.dropWhile_sublist _))

theorem stripEncSuffix_marker (sfx pre r : List Char)
    (hsfx : sfx.head? = some '%') (hpre : pre = httpMarker ∨ pre = httpsMarker) :
    ∃ r', stripEncSuffix sfx (pre ++ r) = pre ++ r' ∧ ∀ c ∈ r', c ∈ r := by
  by_cases hr3 : 3 ≤ r.length
  · by_cases hcond : (pre ++ r).drop ((pre ++ r).length - 3) = sfx
    · refine ⟨r.take (r.length - 3), ?_, fun c hc => List.take_subset _ _ hc⟩
      have hlen : (pre ++ r).length - 3 = pre.length + (r.length - 3) := by
        rw [List.length_append]; omega
      rw [stripEncSuffix, if_pos ⟨by rw [List.length_append]; omega, hcond⟩,
        hlen, List.take_append]
    · refine ⟨r, ?_, fun c hc => hc⟩
      rw [stripEncSuffix, if_neg]
      rintro ⟨-, h2⟩
      exact hcond h2
  · refine ⟨r, ?_, fun c hc => hc⟩
    rw [stripEncSuffix, if_neg]
    rintro ⟨hlen3, hcond⟩
    have hplen : 7 ≤ pre.length := by
      rcases hpre with h | h <;> subst h <;> decide
    have hn : (pre ++ r).length - 3 ≤ pre.length := by
      rw [List.length_append] at hlen3 ⊢; omega
    have hnlt : (pre ++ r).length - 3 < pre.length := by
      rw [List.length_append] at hlen3 ⊢; omega
    rw [List.drop_append_of_le_length hn] at hcond
    have hne : pre.drop ((pre ++ r).length - 3) ≠ [] := by
      rw [Ne, List.drop_eq_nil_iff]
      omega
    obtain ⟨h0, t0, hdt⟩ := List.exists_cons_of_ne_nil hne
    have h0eq : h0 = '%' := by
      rw [hdt] at hcond
      rw [← hcond] at hsfx
      simpa using hsfx
    have hmem : h0 ∈ pre := by
      refine List.drop_subset ((pre ++ r).length - 3) pre ?_
      rw [hdt]
      exact List.mem_cons_self _ _
    have hno : ('%' : Char) ∉ pre := by
      rcases hpre with h | h <;> subst h <;> decide
    exact hno (h0eq ▸ hmem)

theorem cleanUrl_marker (pre r : List Char)
    (hpre : pre = httpMarker ∨ pre = httpsMarker) :
    ∃ r', cleanUrl (pre ++ r) = pre ++ r' ∧ ∀ c ∈ r', c ∈ r := by
  rw [cleanUrl, stripTrailingPunct_marker pre r hpre]
  obtain ⟨r1, e1, m1⟩ :=
    stripEncSuffix_marker ['%', '6', '0'] pre (stripTrailingPunct r) rfl hpre
  rw [e1]
  obtain ⟨r2, e2, m2⟩ := stripEncSuffix_marker ['%', '2', '7'] pre r1 rfl hpre
  rw [e2]
  obtain ⟨r3, e3, m3⟩ := stripEncSuffix_marker ['%', '2', '2'] pre r2 rfl hpre
  rw [e3]
  exact ⟨r3, rfl, fun c hc =>
    mem_stripTrailingPunct c r (m1 c (m2 c (m3 c hc)))⟩

theorem isPrefixOf_append_self : ∀ (a y : List Char),
    List.isPrefixOf a (a ++ y) = true := by
  intro a
  induction a with
  | nil => intro y; simp [List.isPrefixOf]
  | cons c t ih => intro y; simp [List.isPrefixOf, ih]

theorem scanUrls_shape (fuel : Nat) :
    ∀ (l : List Char), ∀ m ∈ scanUrls fuel l,
      ∃ pre run, (pre = httpMarker ∨ pre = httpsMarker) ∧ m = pre ++ run ∧
        run ≠ [] ∧ ∀ c ∈ run, urlChar c = true := by
  induction fuel with
  | zero =>
    intro l m hm
    simp [scanUrls] at hm
  | succ f ih =>
    intro l m hm
    match l with
    | [] => simp [scanUrls] at hm
    | c :: rest =>
      rw [scanUrls] at hm
      by_cases hs : httpsMarker.isPrefixOf (c :: rest)
      · rw [if_pos hs] at hm
        by_cases hrun : ((c :: rest).drop 8).takeWhile urlChar = []
        · rw [if_pos hrun] at hm
          exact ih rest m hm
        · rw [if_neg hrun] at hm
          rcases List.mem_cons.mp hm with h | h
          · exact ⟨httpsMarker, ((c :: rest).drop 8).takeWhile urlChar,
              Or.inr rfl, h, hrun, fun x hx => List.mem_takeWhile_imp hx⟩
          · exact ih _ m h
      · rw [if_neg hs] at hm
        by_cases hp : httpMarker.isPrefixOf (c :: rest)
        · rw [if_pos hp] at hm
          by_cases hrun : ((c :: rest).drop 7).takeWhile urlChar = []
          · rw [if_pos hrun] at hm
            exact ih rest m hm
          · rw [if_neg hrun] at hm
            rcases List.mem_cons.mp hm with h | h
            · exact ⟨httpMarker, ((c :: rest).drop 7).takeWhile urlChar,
                Or.inl rfl, h, hrun, fun x hx => List.mem_takeWhile_imp hx⟩
            · exact ih _ m h
        · rw [if_neg hp] at hm
          exact ih rest m hm

/-! ## Claim theorems: URL extraction -/

/-- C10: every URL returned by `extractUrls` begins with one of the two
scheme markers and contains neither a whitespace character nor a closing
parenthesis; in particular a URL followed by a closing parenthesis is cut
off before the parenthesis. -/
theorem claim10 :
    (∀ (text u : List Char), u ∈ extractUrls text →
      (List.isPrefixOf (cs "http://") u = true ∨
        List.isPrefixOf (cs "https://") u = true) ∧
      ∀ c ∈ u, isJsSpace c = false ∧ c ≠ ')') ∧
    extractUrls (cs "see (http://a.com/x) end") = [cs "http://a.com/x"] := by
  constructor
  · intro text u hu
    rw [extractUrls, List.mem_map] at hu
    obtain ⟨m, hm, rfl⟩ := hu
    obtain ⟨pre, run, hpre, rfl, -, hchars⟩ :=
      scanUrls_shape text.length text m hm
    obtain ⟨r', he, hsub⟩ := cleanUrl_marker pre run hpre
    rw [he]
    constructor
    · rcases hpre with h | h <;> subst h
      · exact Or.inl (isPrefixOf_append_self httpMarker r')
      · exact Or.inr (isPrefixOf_append_self httpsMarker r')
    · intro c hc
      rcases List.mem_append.mp hc with h | h
      · rcases hpre with hp | hp <;> subst hp
        · exact (by decide : ∀ x ∈ httpMarker, isJsSpace x = false ∧ x ≠ ')') c h
        · exact (by decide : ∀ x ∈ httpsMarker, isJsSpace x = false ∧ x ≠ ')') c h
      · have hok := hchars c (hsub c h)
        simp only [urlChar, Bool.and_eq_true, Bool.not_eq_true', bne_iff_ne] at hok
        exact hok
  · decide

/-- Witness for C10: the concrete extraction from C6's example satisfies the
scheme and character properties. -/
theorem claim10_witness :
    (cs "http://a.com/x" ∈ extractUrls (cs "check http://a.com/x.")) ∧
    ((List.isPrefixOf (cs "http://") (cs "http://a.com/x") = true ∨
      List.isPrefixOf (cs "https://") (cs "http://a.com/x") = true) ∧
     ∀ c ∈ cs "http://a.com/x", isJsSpace c = false ∧ c ≠ ')') :=
  ⟨by decide,
   claim10.1 (cs "check http://a.com/x.") (cs "http://a.com/x") (by decide)⟩

/-- C6, counterexample to the claim as stated: the percent-encoded form of
the period, `%2E`, is a percent-encoded form of a listed trailing
punctuation character, but `extractUrls` does not strip it (only `%60`,
`%27` and `%22` are handled), while the claimed stripping does. -/
theorem claim6_counterexample :
    extractUrls (cs "see http://a.com/x%2E") = [cs "http://a.com/x%2E"] ∧
    extractUrlsSpec (cs "see http://a.com/x%2E") = [cs "http://a.com/x"] ∧
    extractUrls (cs "see http://a.com/x%2E") ≠
      extractUrlsSpec (cs "see http://a.com/x%2E") :=
  ⟨by decide, by decide, by decide⟩

/-- C6 (amended): `extractUrls` returns the URL-like tokens in discovery
order without de-duplicating repeated URLs, cleaning each match in one
pass: first the maximal trailing run of the punctuation characters, then at
most one trailing `%60`, then one `%27`, then one `%22`; percent-encoded
forms of the other punctuation characters are not stripped, and a
punctuation character exposed by a percent-strip is kept.  In particular
`extractUrls "check http://a.com/x."` yields `["http://a.com/x"]`. -/
theorem claim6_amended :
    (∀ text : List Char, extractUrls text = (findUrlMatches text).map cleanUrl) ∧
    extractUrls (cs "check http://a.com/x.") = [cs "http://a.com/x"] ∧
    extractUrls (cs "a http://x.co/q b http://x.co/q") =
      [cs "http://x.co/q", cs "http://x.co/q"] ∧
    extractUrls (cs "u http://a.b/c?!") = [cs "http://a.b/c"] ∧
    extractUrls (cs "u http://a.b/c%60") = [cs "http://a.b/c"] ∧
    extractUrls (cs "u http://a.b/c.%60") = [cs "http://a.b/c."] :=
  ⟨fun _ => rfl, by decide, by decide, by decide, by decide, by decide⟩

/-! ## Claim theorems: link classification and enrichment -/

/-- C5, counterexample to the claim as stated: a transcript fetch that
throws with an expected message (one that `expectedTranscriptFailure`
recognises, here a disabled transcript) still produces a LinkInfo whose
`error` field is set to `Transcript unavailable`, not a LinkInfo with no
error; the expected/unexpected distinction only controls logging inside
`getYouTubeTranscript`, which collapses every failure to `none`. -/
theorem claim5_counterexample :
    expectedTranscriptFailure (cs "Transcript is disabled on this video") = true ∧
    (enrichLink (stubOracle (.err (cs "Transcript is disabled on this video")))
        defaultEnrichment (cs "https://youtube.com/watch?v=abc")).type = .youtube ∧
    (enrichLink (stubOracle (.err (cs "Transcript is disabled on this video")))
        defaultEnrichment (cs "https://youtube.com/watch?v=abc")).content = none ∧
    (enrichLink (stubOracle (.err (cs "Transcript is disabled on this video")))
        defaultEnrichment (cs "https://youtube.com/watch?v=abc")).error =
      some (cs "Transcript unavailable") := by
  refine ⟨by decide, by decide, by decide, by decide⟩

/-- C5 (amended): for every video-hosting URL whose transcript is
unavailable — for any reason, expected or not — `enrichLink` returns a
LinkInfo with category `youtube`, no content, and the error field set to
`Transcript unavailable`; the expected/unexpected distinction affects only
logging inside the transcript fetcher, never the returned LinkInfo. -/
theorem claim5_amended (o : Oracle) (config : EnrichmentConfig) (url : List Char)
    (hyt : isYouTubeUrl (resolveUrl o url) = true)
    (hcfg : config.fetchYouTube = true)
    (htr : getYouTubeTranscript o (resolveUrl o url) = none) :
    enrichLink o config url =
      { url := resolveUrl o url, type := .youtube,
        error := some (cs "Transcript unavailable") } := by
  simp [enrichLink, hyt, hcfg, htr]

/-- Witness for C5 at a concrete input: a disabled-transcript oracle on a
watch URL. -/
theorem claim5_witness :
    enrichLink (stubOracle (.err (cs "Transcript is disabled on this video")))
        defaultEnrichment (cs "https://youtube.com/watch?v=abc") =
      { url := resolveUrl
          (stubOracle (.err (cs "Transcript is disabled on this video")))
          (cs "https://youtube.com/watch?v=abc"),
        type := .youtube, error := some (cs "Transcript unavailable") } :=
  claim5_amended _ defaultEnrichment _ (by decide) rfl (by decide)

/-- C7: classification is by strict priority.  (1) A video-hosting URL with
transcript fetching enabled classifies as `youtube`.  (2) With transcript
fetching disabled the result never consults the transcript collaborator
(it only depends on the redirect and article oracles).  (3) Otherwise a
twitter.com/x.com URL yields exactly the content-less `twitter` LinkInfo.
(4) Otherwise an image-extension URL yields the `image` LinkInfo whatever
the fetch-article setting.  (5) Otherwise, with article fetching disabled,
the result is `unknown` and never consults the article collaborator.
(6) Otherwise, when extraction yields no content, the result is
`unknown`. -/
theorem claim7 (o : Oracle) (config : EnrichmentConfig) (url : List Char) :
    (isYouTubeUrl (resolveUrl o url) = true → config.fetchYouTube = true →
      (enrichLink o config url).type = .youtube) ∧
    (∀ o' : Oracle, o.resolve = o'.resolve → o.rawArticle = o'.rawArticle →
      config.fetchYouTube = false →
      enrichLink o config url = enrichLink o' config url) ∧
    ((isYouTubeUrl (resolveUrl o url) && config.fetchYouTube) = false →
      (containsSub (cs "twitter.com/") (resolveUrl o url) ||
        containsSub (cs "x.com/") (resolveUrl o url)) = true →
      enrichLink o config url = { url := resolveUrl o url, type := .twitter }) ∧
    ((isYouTubeUrl (resolveUrl o url) && config.fetchYouTube) = false →
      (containsSub (cs "twitter.com/") (resolveUrl o url) ||
        containsSub (cs "x.com/") (resolveUrl o url)) = false →
      isImageUrl (resolveUrl o url) = true →
      ∀ b : Bool, enrichLink o { config with fetchArticles := b } url =
        { url := resolveUrl o url, type := .image }) ∧
    ((isYouTubeUrl (resolveUrl o url) && config.fetchYouTube) = false →
      (containsSub (cs "twitter.com/") (resolveUrl o url) ||
        containsSub (cs "x.com/") (resolveUrl o url)) = false →
      isImageUrl (resolveUrl o url) = false →
      config.fetchArticles = false →
      (enrichLink o config url = { url := resolveUrl o url, type := .unknown } ∧
       ∀ o' : Oracle, o.resolve = o'.resolve → o.fetchTranscript = o'.fetchTranscript →
         enrichLink o config url = enrichLink o' config url)) ∧
    ((isYouTubeUrl (resolveUrl o url) && config.fetchYouTube) = false →
      (containsSub (cs "twitter.com/") (resolveUrl o url) ||
        containsSub (cs "x.com/") (resolveUrl o url)) = false →
      isImageUrl (resolveUrl o url) = false →
      ((extractArticle o (resolveUrl o url)).bind (fun a => a.content)).getD [] = [] →
      enrichLink o config url = { url := resolveUrl o url, type := .unknown }) := by
  have hres : ∀ o' : Oracle, o.resolve = o'.resolve →
      resolveUrl o' url = resolveUrl o url := by
    intro o' h
    rw [resolveUrl, resolveUrl, h]
  refine ⟨?_, ?_, ?_, ?_, ?_, ?_⟩
  · intro h1 h2
    rcases htr : getYouTubeTranscript o (resolveUrl o url) with _ | t <;>
      simp [enrichLink, h1, h2, htr]
  · intro o' h1 h2 hcfg
    have hr := hres o' h1
    have ha : extractArticle o' = extractArticle o := by
      funext u
      rw [extractArticle, extractArticle, h2]
    simp [enrichLink, hcfg, hr, ha]
  · intro h1 h2
    simp [enrichLink, h1, h2]
  · intro h1 h2 h3 b
    simp [enrichLink, h1, h2, h3]
  · intro h1 h2 h3 h4
    refine ⟨by simp [enrichLink, h1, h2, h3, h4], ?_⟩
    intro o' ho1 ho2
    have hr := hres o' ho1
    simp [enrichLink, h1, h2, h3, h4, hr]
  · intro h1 h2 h3 h4
    by_cases hfa : config.fetchArticles
    · rcases hart : extractArticle o (resolveUrl o url) with _ | a
      · simp [enrichLink, h1, h2, h3, hfa, hart]
      · rcases hc : a.content with _ | l
        · simp [enrichLink, h1, h2, h3, hfa, hart, hc]
        · have hl : l = [] := by simpa [hart, hc] using h4
          subst hl
          simp [enrichLink, h1, h2, h3, hfa, hart, hc]
    · simp [enrichLink, h1, h2, h3, hfa]

/-- Witness for C7 at concrete inputs: a twitter URL classifies as
`twitter`; a `.png` URL classifies as `image` with article fetching both on
and off; a plain page with article fetching off classifies as `unknown`. -/
theorem claim7_witness :
    (enrichLink (stubOracle (.err (cs "x"))) defaultEnrichment
        (cs "https://x.com/user/status/1") =
      { url := resolveUrl (stubOracle (.err (cs "x")))
          (cs "https://x.com/user/status/1"), type := .twitter }) ∧
    (enrichLink (stubOracle (.err (cs "x")))
        { defaultEnrichment with fetchArticles := true }
        (cs "https://a.b/p.png") =
      { url := resolveUrl (stubOracle (.err (cs "x"))) (cs "https://a.b/p.png"),
        type := .image }) ∧
    (enrichLink (stubOracle (.err (cs "x")))
        { defaultEnrichment with fetchArticles := false }
        (cs "https://a.b/p.png") =
      { url := resolveUrl (stubOracle (.err (cs "x"))) (cs "https://a.b/p.png"),
        type := .image }) ∧
    (enrichLink (stubOracle (.err (cs "x")))
        { defaultEnrichment with fetchArticles := false }
        (cs "https://a.b/page") =
      { url := resolveUrl (stubOracle (.err (cs "x"))) (cs "https://a.b/page"),
        type := .unknown }) :=
  ⟨(claim7 (stubOracle (.err (cs "x"))) defaultEnrichment
      (cs "https://x.com/user/status/1")).2.2.1 (by decide) (by decide),
   (claim7 (stubOracle (.err (cs "x"))) defaultEnrichment
      (cs "https://a.b/p.png")).2.2.2.1 (by decide) (by decide) (by decide) true,
   (claim7 (stubOracle (.err (cs "x"))) defaultEnrichment
      (cs "https://a.b/p.png")).2.2.2.1 (by decide) (by decide) (by decide) false,
   ((claim7 (stubOracle (.err (cs "x")))
      { defaultEnrichment with fetchArticles := false }
      (cs "https://a.b/page")).2.2.2.2.1 (by decide) (by decide) (by decide) rfl).1⟩

/-- C8: a bookmark whose enrichment throws is still included, at its
position, as a minimal EnrichedBookmark: empty enriched links, no thread
content, no quoted content, all metadata flags false and no link types,
with only the canonical source URL kept; and the batch keeps its length. -/
theorem claim8 (attempt : Bookmark → FetchResult EnrichedBookmark)
    (bookmarks : List Bookmark) (i : Nat) (msg : List Char)
    (h : i < bookmarks.length)
    (he : attempt (bookmarks.get ⟨i, h⟩) = .err msg) :
    (enrichBookmarks attempt bookmarks).length = bookmarks.length ∧
    (enrichBookmarks attempt bookmarks)[i]? =
      some { base := bookmarks.get ⟨i, h⟩, enrichedLinks := [],
             threadContent := none, quotedContent := none,
             metadata := { hasLinks := false, hasMedia := false,
                           isThread := false, isQuote := false,
                           linkTypes := [] },
             sourceUrl := buildSourceUrl (bookmarks.get ⟨i, h⟩) } := by
  constructor
  · simp [enrichBookmarks]
  · rw [enrichBookmarks, List.getElem?_map, List.getElem?_eq_getElem h]
    rw [List.get_eq_getElem] at he
    simp [he, minimalEnrichment]

/-- Witness for C8: a one-bookmark batch whose enrichment always throws. -/
theorem claim8_witness :
    (enrichBookmarks (fun _ => .err (cs "boom")) [sampleBookmark]).length =
      [sampleBookmark].length ∧
    (enrichBookmarks (fun _ => .err (cs "boom")) [sampleBookmark])[0]? =
      some { base := [sampleBookmark].get ⟨0, by decide⟩, enrichedLinks := [],
             threadContent := none, quotedContent := none,
             metadata := { hasLinks := false, hasMedia := false,
                           isThread := false, isQuote := false,
                           linkTypes := [] },
             sourceUrl := buildSourceUrl ([sampleBookmark].get ⟨0, by decide⟩) } :=
  claim8 (fun _ => .err (cs "boom")) [sampleBookmark] 0 (cs "boom")
    (by decide) rfl

/-! ## Claim theorems: ledger loading -/

/-- C9, counterexample to the claim as stated: a persisted file whose
contents parse as the JSON number 42 — which is not a valid ledger — is
returned as the state unchanged instead of falling back to the empty
ledger: `load` validates nothing once `JSON.parse` succeeds. -/
theorem claim9_counterexample :
    isValidLedger (.num 42) = false ∧
    loadState (cs "T") (some (.ok (.num 42))) ≠ emptyLedger (cs "T") := by
  refine ⟨rfl, ?_⟩
  intro h
  rw [loadState, emptyLedger] at h
  exact Json.noConfusion h

/-- C9 (amended): constructing the state manager never fails, and `load`
falls back to the empty ledger — schema version 1, no processed entries —
exactly when the file is missing or reading/parsing throws; a file that
parses to any JSON value at all, valid ledger or not, is returned as the
state without validation. -/
theorem claim9_amended :
    (∀ now : List Char, loadState now none = emptyLedger now) ∧
    (∀ (now e : List Char), loadState now (some (.error e)) = emptyLedger now) ∧
    (∀ (now : List Char) (j : Json), loadState now (some (.ok j)) = j) ∧
    (∀ now : List Char, isValidLedger (emptyLedger now) = true ∧
      lookupField (cs "version") (emptyLedger now) = some (.num 1) ∧
      lookupField (cs "processed") (emptyLedger now) = some (.obj [])) :=
  ⟨fun _ => rfl, fun _ _ => rfl, fun _ _ => rfl,
   fun _ => ⟨rfl, rfl, rfl⟩⟩

end BirdBookmark
